import Mathlib

/-!
Shallow embedding of the class-lifecycle core of the cs_discord_rs bot
(src/classes.rs and src/main.rs), together with proofs of the specified
properties.

Identifiers (guild ids, role ids, channel ids) are Discord snowflakes,
i.e. u64 values; they are modelled as `Nat`.  The document store is
modelled as a list of records (MongoDB `insert_one` appends, `find_one`
returns the first match, `delete_many` removes every match).  The chat
platform (serenity) is modelled by explicit `Guild` values and, where an
operation calls out to the platform, by explicit oracle arguments
describing the replies of the platform.
-/

namespace CsDiscord

/-- Channel kinds as far as this program distinguishes them.
`serenity::model::channel::ChannelType`: `Text` and `Voice` are handled,
`Category` marks category channels (`Channel::Category` in the serenity
guild channel map), and `other` stands for every remaining kind
(announcement, stage, ...). -/
inductive ChannelKind where
  | text
  | voice
  | category
  | other
deriving DecidableEq, Repr

/-- A live guild role (`serenity::model::guild::Role`): id, name and
hierarchy position (an `i64` in serenity, hence `Int`). -/
structure RoleRec where
  id : Nat
  name : String
  position : Int
deriving DecidableEq, Repr

/-- A live guild channel (`GuildChannel` / `ChannelCategory`): id, name,
kind and optional parent category. -/
structure GuildChannelRec where
  id : Nat
  name : String
  kind : ChannelKind
  parent_id : Option Nat
deriving DecidableEq, Repr

/-- The live guild object graph as read from the platform cache:
`guild.roles` and `guild.channels` (categories included, with
`kind = .category`). -/
structure Guild where
  id : Nat
  roles : List RoleRec
  channels : List GuildChannelRec
deriving DecidableEq, Repr

/-- `Server` record from `classes.rs` (collection `servers`). -/
structure ServerRec where
  server_id : Nat
  admin_roles : List Nat
  refrole : Option Nat
deriving DecidableEq, Repr

/-- `Class` record from `classes.rs` (collection `classes`). -/
structure ClassRec where
  server_id : Nat
  name : String
  short_name : String
  role : Nat
  category : Nat
  text_channels : List Nat
  voice_channels : List Nat
deriving DecidableEq, Repr

/-- The `servers` collection, in insertion order. -/
abbrev ServerDb := List ServerRec

/-- The `classes` collection, in insertion order. -/
abbrev ClassDb := List ClassRec

/-- `ClassError` from `main.rs`.  `InvalidChannel`, `InvalidChannelType`
carry the id of the mentioned channel (a `Mention` renders the id); `ApiError`
carries an abstract token identifying the underlying platform error. -/
inductive ClassError where
  | NoRefrole
  | InvalidRefrole
  | ClassExists
  | RoleExists
  | CategoryExists
  | NoServer
  | InvalidRole
  | InvalidChannel (channel : Nat)
  | InvalidChannelType (channel : Nat)
  | RoleInUse (name : String)
  | InvalidClass
  | ApiError (e : Nat)
  | DatabaseError
deriving DecidableEq, Repr

deriving instance DecidableEq for Except

/-- `str::trim` from Rust: drop whitespace from both ends of the
string. -/
def rustTrim (s : String) : String :=
  String.mk
    (((s.data.dropWhile Char.isWhitespace).reverse.dropWhile
      Char.isWhitespace).reverse)

/-- `str::to_lowercase` from Rust (restricted to the simple one-to-one
case mapping, which covers the names this program compares). -/
def rustToLower (s : String) : String :=
  String.mk (s.data.map Char.toLower)

/-- `Server::get_or_create`: `find_one` on `server_id`; on a miss insert a
default record (`admin_roles = []`, `refrole = None`) and return it.
Returns the record together with the updated collection. -/
def getOrCreate (sdb : ServerDb) (id : Nat) : ServerRec × ServerDb :=
  match sdb.find? (fun s => s.server_id == id) with
  | some s => (s, sdb)
  | none =>
      let s : ServerRec := ⟨id, [], none⟩
      (s, sdb ++ [s])

/-- A sequence of `Server::get_or_create` calls, one per listed guild id. -/
def runGetOrCreate (ids : List Nat) (sdb : ServerDb) : ServerDb :=
  ids.foldl (fun s i => (getOrCreate s i).2) sdb

/-- At most one `Server` record per `server_id`. -/
def serverUnique (sdb : ServerDb) : Prop :=
  sdb.Pairwise (fun a b => a.server_id ≠ b.server_id)

instance (sdb : ServerDb) : Decidable (serverUnique sdb) := by
  unfold serverUnique; infer_instance

/-- `Class::class_exists`: `find_one` with the exact-match filter
`{ server_id, name }` (MongoDB default binary collation, hence
case-sensitive), tested for `is_some`. -/
def classExists (db : ClassDb) (sid : Nat) (name : String) : Bool :=
  db.any (fun c => c.server_id == sid && c.name == name)

/-- `Class::find_by_role`: `find_one` with the exact-match filter
`{ role }`. -/
def findByRole (db : ClassDb) (role : Nat) : Option ClassRec :=
  db.find? (fun c => c.role == role)

/-- `Class::untrack`: `delete_many` with filter `{ role }`; returns
`Some(name)` iff `deleted_count > 0`, paired with the updated
collection. -/
def untrack (db : ClassDb) (cls : ClassRec) : Option String × ClassDb :=
  let remaining := db.filter (fun c => c.role != cls.role)
  let deletedCount := db.length - remaining.length
  (if deletedCount > 0 then some cls.name else none, remaining)

/-- The short name computed by `create`/`track`:
`name.split_whitespace().collect::<String>().to_lowercase()`, i.e. drop
all whitespace, then lower-case. -/
def shortName (name : String) : String :=
  rustToLower (String.mk (name.data.filter (fun c => !c.isWhitespace)))

/-- `HashSet::insert` modelled on a duplicate-free list kept in insertion
order. -/
def insertNew (x : Nat) (l : List Nat) : List Nat :=
  if x ∈ l then l else l ++ [x]

/-- The channel-classification loop of `Class::track`: walk the combined
channel list, inserting text channels into one set and voice channels
into the other; any other channel kind aborts with `InvalidChannelType`
mentioning that channel. -/
def classifyChannels : List GuildChannelRec → List Nat → List Nat →
    Except ClassError (List Nat × List Nat)
  | [], txt, vc => .ok (txt, vc)
  | c :: rest, txt, vc =>
      match c.kind with
      | .text => classifyChannels rest (insertNew c.id txt) vc
      | .voice => classifyChannels rest txt (insertNew c.id vc)
      | _ => .error (.InvalidChannelType c.id)

/-- The guild-side channels `track` adds implicitly: every
`Channel::Guild` (i.e. non-category) channel of the live guild whose
`parent_id` is the given category. -/
def implicitChannels (guild : Guild) (category : GuildChannelRec) :
    List GuildChannelRec :=
  guild.channels.filter
    (fun c => c.kind != .category && c.parent_id == some category.id)

/-- The effective class name used by `track`:
`name.as_ref().map(|s| s.trim()).unwrap_or(&role.name)` — the supplied
name trimmed, or the own (untrimmed) name of the role. -/
def effectiveName (nameArg : Option String) (role : RoleRec) : String :=
  match nameArg with
  | some s => rustTrim s
  | none => role.name

/-- `Class::track`.  Returns the result of the command together with the
updated `servers` and `classes` collections (the `Server::get_or_create`
call persists its record even when `track` fails afterwards). -/
def track (sdb : ServerDb) (db : ClassDb) (guild : Guild)
    (nameArg : Option String) (role : RoleRec) (category : GuildChannelRec)
    (channels : List GuildChannelRec) :
    Except ClassError ClassRec × ServerDb × ClassDb :=
  let sr := getOrCreate sdb guild.id
  let name := effectiveName nameArg role
  if classExists db guild.id name then (.error .ClassExists, sr.2, db)
  else match findByRole db role.id with
  | some c => (.error (.RoleInUse c.name), sr.2, db)
  | none =>
      match classifyChannels (channels ++ implicitChannels guild category) [] [] with
      | .error e => (.error e, sr.2, db)
      | .ok (txt, vc) =>
          let cls : ClassRec :=
            ⟨sr.1.server_id, name, shortName name, role.id, category.id, txt, vc⟩
          (.ok cls, sr.2, db ++ [cls])

/-- The role-hierarchy position requested by `create` for the new class
role: the live position of the reference role cast `as u8`, i.e. its value
modulo 256 (for an `i64` the cast keeps the low 8 bits, which for the
mathematical remainder with positive modulus is `position % 256`). -/
def requestedPosition (position : Int) : Nat :=
  (position % 256).toNat

/-- The parameters of the `guild.create_role` request issued by
`create`: `r.name(name).mentionable(true).position(position)`. -/
structure RoleReq where
  name : String
  mentionable : Bool
  position : Nat
deriving DecidableEq, Repr

/-- The ids the platform assigns to the objects `create` builds (a role,
a category, three text channels, one voice channel).  Discord snowflakes
are globally unique, so the theorems about role uniqueness take the
freshness of `roleId` as a hypothesis. -/
structure FreshIds where
  roleId : Nat
  catId : Nat
  ch1 : Nat
  ch2 : Nat
  ch3 : Nat
  vch : Nat
deriving DecidableEq, Repr

/-- `Class::create`.  Returns the result of the command (the persisted class
together with the role-creation request sent to the platform) and the
updated collections. -/
def create (fresh : FreshIds) (sdb : ServerDb) (db : ClassDb)
    (guild : Guild) (nameArg : String) :
    Except ClassError (ClassRec × RoleReq) × ServerDb × ClassDb :=
  let name := rustTrim nameArg
  let sr := getOrCreate sdb guild.id
  match sr.1.refrole with
  | none => (.error .NoRefrole, sr.2, db)
  | some refrole =>
      if classExists db sr.1.server_id name then (.error .ClassExists, sr.2, db)
      else if guild.roles.any
          (fun r => rustToLower r.name == rustToLower name) then
        (.error .RoleExists, sr.2, db)
      else if guild.channels.any
          (fun c => c.kind == .category &&
            rustToLower c.name == rustToLower name) then
        (.error .CategoryExists, sr.2, db)
      else match guild.roles.find? (fun r => r.id == refrole) with
      | none => (.error .InvalidRefrole, sr.2, db)
      | some r =>
          let roleReq : RoleReq := ⟨name, true, requestedPosition r.position⟩
          let sname := shortName name
          let cls : ClassRec :=
            ⟨sr.1.server_id, name, sname, fresh.roleId, fresh.catId,
              [fresh.ch1, fresh.ch2, fresh.ch3], [fresh.vch]⟩
          (.ok (cls, roleReq), sr.2, db ++ [cls])

/-- Whether an object id resolves in the channel map of the live guild. -/
def channelLive (guild : Guild) (c : Nat) : Bool :=
  guild.channels.any (fun ch => ch.id == c)

/-- Whether a role id resolves in the role map of the live guild. -/
def roleLive (guild : Guild) (r : Nat) : Bool :=
  guild.roles.any (fun rr => rr.id == r)

/-- The channel-deletion loop of `Class::delete`: for each listed channel
id, if it resolves in the live guild attempt the platform deletion
(`apiErr` gives the error token of the platform when it rejects the call),
otherwise record `InvalidChannel`.  Accumulates the failure list and the
list of platform deletion calls actually issued. -/
def deleteChannelsLoop (guild : Guild) (apiErr : Nat → Option Nat) :
    List Nat → List ClassError → List Nat → List ClassError × List Nat
  | [], failed, attempts => (failed, attempts)
  | c :: rest, failed, attempts =>
      if channelLive guild c then
        match apiErr c with
        | some e => deleteChannelsLoop guild apiErr rest
            (failed ++ [.ApiError e]) (attempts ++ [c])
        | none => deleteChannelsLoop guild apiErr rest failed (attempts ++ [c])
      else
        deleteChannelsLoop guild apiErr rest (failed ++ [.InvalidChannel c]) attempts

/-- `Class::delete`: `untrack` first, then walk every text channel, every
voice channel and the category, then the role, attempting each platform
deletion independently and collecting failures.  Returns
`(untrack result, error list)`, the updated `classes` collection, and the
list of platform deletion calls issued. -/
def deleteClass (db : ClassDb) (cls : ClassRec) (guild : Guild)
    (apiErr : Nat → Option Nat) :
    (Option String × List ClassError) × ClassDb × List Nat :=
  let ut := untrack db cls
  let objs := cls.text_channels ++ cls.voice_channels ++ [cls.category]
  let fa := deleteChannelsLoop guild apiErr objs [] []
  let fa2 :=
    if roleLive guild cls.role then
      match apiErr cls.role with
      | some e => (fa.1 ++ [.ApiError e], fa.2 ++ [cls.role])
      | none => (fa.1, fa.2 ++ [cls.role])
    else (fa.1 ++ [.InvalidRole], fa.2)
  ((ut.1, fa2.1), ut.2, fa2.2)

/-- The failure `delete` records, if any, for one listed channel id:
`InvalidChannel` when the id no longer resolves in the live guild,
`ApiError` when the platform rejects the deletion, nothing when the
deletion goes through. -/
def chanFailure (guild : Guild) (apiErr : Nat → Option Nat) (c : Nat) :
    Option ClassError :=
  if channelLive guild c then (apiErr c).map ClassError.ApiError
  else some (ClassError.InvalidChannel c)

/-- Decimal digit to character, as the Rust integer formatting emits it. -/
def digitChar : Nat → Char
  | 0 => '0'
  | 1 => '1'
  | 2 => '2'
  | 3 => '3'
  | 4 => '4'
  | 5 => '5'
  | 6 => '6'
  | 7 => '7'
  | 8 => '8'
  | 9 => '9'
  | _ => '*'

/-- The decimal digits of `n`, least significant first (empty for 0);
the repeated div/mod loop of the Rust integer `Display`. -/
def digitsRev : Nat → List Nat
  | 0 => []
  | n + 1 => ((n + 1) % 10) :: digitsRev ((n + 1) / 10)
decreasing_by exact Nat.div_lt_self (Nat.succ_pos n) (by omega)

/-- `u64::to_string` (also `RoleId::to_string`): the decimal rendering of
the id, `"0"` for zero. -/
def u64ToString (n : Nat) : String :=
  if n = 0 then "0" else String.mk (((digitsRev n).reverse).map digitChar)

/-- One step of the Rust unsigned decimal parse: a character is a digit or
the parse fails. -/
def parseDigit (c : Char) : Option Nat :=
  if '0' ≤ c ∧ c ≤ '9' then some (c.toNat - 48) else none

/-- The accumulating loop of `u64::from_str`: multiply-and-add each
digit, failing on a non-digit or when the value leaves the u64 range. -/
def parseU64Core : List Char → Nat → Option Nat
  | [], acc => some acc
  | c :: rest, acc =>
      match parseDigit c with
      | none => none
      | some d =>
          if acc * 10 + d < 2 ^ 64 then parseU64Core rest (acc * 10 + d)
          else none

/-- `str::parse::<RoleId>()` = `u64::from_str`: empty input fails, an
optional leading `+` is allowed, then the digit loop. -/
def parseU64 (s : String) : Option Nat :=
  match s.toList with
  | [] => none
  | c :: rest =>
      if c = '+' then
        if rest.isEmpty then none else parseU64Core rest 0
      else parseU64Core (c :: rest) 0

/-- Numeric value of a digit run (most significant first), as the natural
comparison parses it. -/
def digitsVal (ds : List Nat) : Nat :=
  ds.foldl (fun a d => a * 10 + d) 0

theorem length_dropWhile_le (p : α → Bool) (l : List α) :
    (l.dropWhile p).length ≤ l.length := by
  induction l with
  | nil => simp
  | cons a l ih =>
      by_cases h : p a
      · simp only [List.dropWhile_cons_of_pos h]; exact le_trans ih (by simp)
      · simp [List.dropWhile_cons_of_neg h]

/-- `human_sort::compare`: walk both strings; when both positions start a
digit run, compare the runs numerically, otherwise compare characters. -/
def humanCompare : List Char → List Char → Ordering
  | [], [] => .eq
  | [], _ :: _ => .lt
  | _ :: _, [] => .gt
  | a :: as, b :: bs =>
      if hd : a.isDigit && b.isDigit then
        let da := (a :: as).takeWhile Char.isDigit
        let ra := (a :: as).dropWhile Char.isDigit
        let db := (b :: bs).takeWhile Char.isDigit
        let rb := (b :: bs).dropWhile Char.isDigit
        let na := digitsVal (da.map (fun c => c.toNat - 48))
        let nb := digitsVal (db.map (fun c => c.toNat - 48))
        if na < nb then .lt
        else if nb < na then .gt
        else humanCompare ra rb
      else if a < b then .lt
      else if b < a then .gt
      else humanCompare as bs
termination_by l1 _ => l1.length
decreasing_by
  · have ha : a.isDigit = true := by
      simpa using (Bool.and_eq_true ..).mp hd |>.1
    simp only [List.dropWhile_cons, ha, if_true]
    exact Nat.lt_succ_of_le (length_dropWhile_le _ _)
  · simp

/-- The class display order: a stable sort by `human_sort::compare` on
names (`itertools::sorted_by`). -/
def classLe (c1 c2 : ClassRec) : Prop :=
  humanCompare c1.name.toList c2.name.toList ≠ .gt

instance : DecidableRel classLe := fun c1 c2 => by
  unfold classLe; infer_instance

/-- Sorted class list for display. -/
def sortClasses (classes : List ClassRec) : List ClassRec :=
  classes.insertionSort classLe

/-- `Itertools::chunks(25)`: split a list into consecutive groups of 25,
the last group possibly shorter. -/
def chunk25 : List α → List (List α)
  | [] => []
  | a :: l => (a :: l.take 24) :: chunk25 (l.drop 24)
termination_by l => l.length
decreasing_by simp [List.length_drop]; omega

/-- `CreateSelectMenuOption`: label, value and pre-selection flag. -/
structure SelectOption where
  label : String
  value : String
  default_selection : Bool
deriving DecidableEq, Repr

/-- One select menu (one action row) of the class menu. -/
structure SelectMenu where
  custom_id : String
  min_values : Nat
  max_values : Nat
  options : List SelectOption
deriving DecidableEq, Repr

/-- `build_class_menu`: sort the classes of the guild naturally by name, map
each to an option (value = the decimal string of the role id, pre-selected iff
the member holds the role), paginate into chunks of 25, and make one
select menu per chunk with `min_values 0` and `max_values = chunk
size`. -/
def buildClassMenu (classes : List ClassRec) (memberRoles : List Nat) :
    List SelectMenu :=
  let opts := (sortClasses classes).map
    (fun c => SelectOption.mk c.name (u64ToString c.role)
      (decide (c.role ∈ memberRoles)))
  (chunk25 opts).enum.map
    (fun p => SelectMenu.mk ("class_menu_button_" ++ u64ToString p.1) 0
      p.2.length p.2)

/-- The role set submitted to `member.edit` by the menu submit handler:
`(member_roles - menu_roles) | new_roles`. -/
def newRoleSet (current shown selected : Finset Nat) : Finset Nat :=
  (current \ shown) ∪ selected

/-- The data path of the submit handler: parse the shown option values and the
submitted values as role ids (`none` models the `unwrap` panic on a
malformed value) and compute the new role set. -/
def submitNewRoles (memberRoles : List Nat)
    (menuValues newValues : List String) : Option (Finset Nat) :=
  match menuValues.mapM parseU64, newValues.mapM parseU64 with
  | some menuRoles, some newRoles =>
      some (newRoleSet memberRoles.toFinset menuRoles.toFinset newRoles.toFinset)
  | _, _ => none

/-- No two class records of the same guild share a name (exact match). -/
def uniqueNames (db : ClassDb) : Prop :=
  db.Pairwise (fun a b => a.server_id = b.server_id → a.name ≠ b.name)

/-- No two class records share a role. -/
def rolesUnique (db : ClassDb) : Prop :=
  db.Pairwise (fun a b => a.role ≠ b.role)

/-- One non-racing `create` or `track` call acting on the two
collections.  For `create` the platform-assigned role id is a fresh
snowflake, hence distinct from every role already recorded. -/
inductive ClassStep : ServerDb × ClassDb → ServerDb × ClassDb → Prop where
  | createStep (fresh : FreshIds) (guild : Guild) (nameArg : String)
      (s : ServerDb × ClassDb)
      (hfresh : fresh.roleId ∉ s.2.map ClassRec.role) :
      ClassStep s (create fresh s.1 s.2 guild nameArg).2
  | trackStep (guild : Guild) (nameArg : Option String) (role : RoleRec)
      (category : GuildChannelRec) (channels : List GuildChannelRec)
      (s : ServerDb × ClassDb) :
      ClassStep s (track s.1 s.2 guild nameArg role category channels).2

/-- Any finite non-racing sequence of `create`/`track` calls. -/
def ClassReach : ServerDb × ClassDb → ServerDb × ClassDb → Prop :=
  Relation.ReflTransGen ClassStep

/-- C1: on submission of a selection control with shown option set
`shown` and submitted subset `selected`, the role set of the member is
replaced by exactly `(current \ shown) ∪ selected`: roles outside
`shown` keep their membership, shown-but-unselected roles are removed,
selected roles are present; the instance from the spec, `current = {A, B, C}`,
`shown = {A, B}`, `selected = {B}` yields `{C, B}`. -/
theorem menu_submit_role_delta (current shown selected : Finset Nat)
    (hsub : selected ⊆ shown) :
    newRoleSet current shown selected = (current \ shown) ∪ selected ∧
    (∀ r, r ∉ shown →
      (r ∈ newRoleSet current shown selected ↔ r ∈ current)) ∧
    (∀ r, r ∈ shown → r ∉ selected →
      r ∉ newRoleSet current shown selected) ∧
    (∀ r, r ∈ selected → r ∈ newRoleSet current shown selected) ∧
    newRoleSet {1, 2, 3} {1, 2} {2} = {3, 2} := by
  refine ⟨rfl, ?_, ?_, ?_, by decide⟩
  · intro r hr
    simp only [newRoleSet, Finset.mem_union, Finset.mem_sdiff]
    constructor
    · rintro (⟨h, _⟩ | h)
      · exact h
      · exact absurd (hsub h) hr
    · intro h
      exact Or.inl ⟨h, hr⟩
  · intro r h1 h2
    simp [newRoleSet, h1, h2]
  · intro r h
    simp [newRoleSet, h]

theorem menu_submit_role_delta_witness :
    3 ∉ ({1, 2} : Finset Nat) ∧
    (3 ∈ newRoleSet {1, 2, 3} {1, 2} {2} ↔ 3 ∈ ({1, 2, 3} : Finset Nat)) :=
  ⟨by decide,
    (menu_submit_role_delta {1, 2, 3} {1, 2} {2} (by decide)).2.1 3 (by decide)⟩

/-- C6: `untrack` deletes exactly the class records whose `role` equals
the role of the class and returns `some name` iff at least one record was
actually deleted, `none` when the deletion matched nothing. -/
theorem untrack_deletes_by_role (db : ClassDb) (cls : ClassRec) :
    ((untrack db cls).2 = db.filter (fun c => c.role != cls.role)) ∧
    (∀ c ∈ db, (c ∈ (untrack db cls).2 ↔ c.role ≠ cls.role)) ∧
    ((untrack db cls).1 = some cls.name ↔ ∃ c ∈ db, c.role = cls.role) ∧
    ((untrack db cls).1 = none ↔ ∀ c ∈ db, c.role ≠ cls.role) := by
  have hkey : (0 < db.length - (db.filter (fun c => c.role != cls.role)).length)
      ↔ ∃ c ∈ db, c.role = cls.role := by
    rw [← List.countP_eq_length_filter]
    have hle := List.countP_le_length (p := fun c => c.role != cls.role) (l := db)
    constructor
    · intro h
      by_contra hno
      push_neg at hno
      have : List.countP (fun c => c.role != cls.role) db = db.length :=
        List.countP_eq_length.mpr (fun c hc => by simpa using hno c hc)
      omega
    · intro ⟨c, hc, hrole⟩
      have : List.countP (fun c => c.role != cls.role) db ≠ db.length := by
        intro heq
        have := List.countP_eq_length.mp heq c hc
        simp [hrole] at this
      omega
  refine ⟨rfl, ?_, ?_, ?_⟩
  · intro c hc
    show c ∈ db.filter (fun c => c.role != cls.role) ↔ _
    simp [List.mem_filter, hc]
  · show (if 0 < db.length - _ then some cls.name else none) = some cls.name ↔ _
    rw [← hkey]
    split
    · simp_all
    · simp_all
  · show (if 0 < db.length - _ then some cls.name else none) = none ↔ _
    constructor
    · intro h c hc hrole
      rw [if_pos (hkey.mpr ⟨c, hc, hrole⟩)] at h
      simp at h
    · intro hall
      have hnp : ¬ (0 < db.length -
          (db.filter (fun c => c.role != cls.role)).length) := by
        intro hp
        obtain ⟨c, hc, hrole⟩ := hkey.mp hp
        exact hall c hc hrole
      rw [if_neg hnp]

theorem untrack_deletes_by_role_witness :
    (untrack [⟨1, "Math", "math", 10, 100, [], []⟩]
      ⟨1, "Math", "math", 10, 100, [], []⟩).1 = some "Math" :=
  (untrack_deletes_by_role _ _).2.2.1.mpr ⟨_, by simp, rfl⟩

theorem deleteChannelsLoop_spec (guild : Guild) (apiErr : Nat → Option Nat)
    (l : List Nat) (failed : List ClassError) (attempts : List Nat) :
    deleteChannelsLoop guild apiErr l failed attempts =
      (failed ++ l.filterMap (chanFailure guild apiErr),
        attempts ++ l.filter (channelLive guild)) := by
  induction l generalizing failed attempts with
  | nil => simp [deleteChannelsLoop]
  | cons c rest ih =>
      unfold deleteChannelsLoop
      by_cases hl : channelLive guild c
      · cases he : apiErr c with
        | some e => simp [hl, he, ih, chanFailure]
        | none => simp [hl, he, ih, chanFailure]
      · simp [hl, ih, chanFailure]

/-- C3: `delete` performs `untrack` first and hands back its result (and
the updated collection) no matter how the platform deletions fare; every
text channel, voice channel, the category and the role are attempted
independently, each failure (object missing from the live guild, or the
platform rejecting the call) being appended to the error list without
stopping the remaining attempts.  The last conjunct is the scenario from the spec: the category already gone, its failure recorded, channels and
role still deleted, and the record removal still reported. -/
theorem delete_best_effort (db : ClassDb) (cls : ClassRec) (guild : Guild)
    (apiErr : Nat → Option Nat) :
    ((deleteClass db cls guild apiErr).1.1 = (untrack db cls).1) ∧
    ((deleteClass db cls guild apiErr).2.1 = (untrack db cls).2) ∧
    ((deleteClass db cls guild apiErr).1.2 =
      (cls.text_channels ++ cls.voice_channels ++ [cls.category]).filterMap
          (chanFailure guild apiErr) ++
        (if roleLive guild cls.role
          then ((apiErr cls.role).map .ApiError).toList
          else [.InvalidRole])) ∧
    ((deleteClass db cls guild apiErr).2.2 =
      (cls.text_channels ++ cls.voice_channels ++ [cls.category]).filter
          (channelLive guild) ++
        (if roleLive guild cls.role then [cls.role] else [])) ∧
    deleteClass [⟨1, "Math", "math", 10, 100, [], []⟩]
        ⟨1, "Math", "math", 10, 100, [7, 8], [9]⟩
        ⟨1, [⟨10, "Math", 5⟩], [⟨7, "t", .text, some 100⟩,
          ⟨8, "t2", .text, some 100⟩, ⟨9, "v", .voice, some 100⟩]⟩
        (fun _ => none) =
      ((some "Math", [.InvalidChannel 100]), [], [7, 8, 9, 10]) := by
  refine ⟨rfl, rfl, ?_, ?_, by decide⟩
  all_goals
    unfold deleteClass
    simp only [deleteChannelsLoop_spec]
    by_cases hl : roleLive guild cls.role
    · cases he : apiErr cls.role <;> simp [hl, he]
    · simp [hl]

theorem find?_append_none {p : α → Bool} {l1 l2 : List α}
    (h : l1.find? p = none) : (l1 ++ l2).find? p = l2.find? p := by
  rw [List.find?_append, h, Option.none_or]

/-- C8: `Server::get_or_create` is idempotent absent races: on first
creation it persists `⟨guild id, [], none⟩`; a second call returns the
record of the first call and changes nothing; at most one record per
`server_id` is preserved by every call and every call sequence. -/
theorem getOrCreate_idempotent :
    (∀ sdb id, sdb.find? (fun s => s.server_id == id) = none →
      getOrCreate sdb id = (⟨id, [], none⟩, sdb ++ [⟨id, [], none⟩])) ∧
    (∀ sdb id, getOrCreate (getOrCreate sdb id).2 id = getOrCreate sdb id) ∧
    (∀ sdb id, serverUnique sdb → serverUnique (getOrCreate sdb id).2) ∧
    (∀ sdb ids, serverUnique sdb → serverUnique (runGetOrCreate ids sdb)) := by
  have hstep : ∀ sdb id, serverUnique sdb → serverUnique (getOrCreate sdb id).2 := by
    intro sdb id h
    unfold getOrCreate
    cases hf : sdb.find? (fun s => s.server_id == id) with
    | some s => exact h
    | none =>
        simp only
        unfold serverUnique at h ⊢
        rw [List.pairwise_append]
        refine ⟨h, by simp, ?_⟩
        intro a ha b hb
        have hne := List.find?_eq_none.mp hf a ha
        have : b = (⟨id, [], none⟩ : ServerRec) := by simpa using hb
        subst this
        simpa using hne
  refine ⟨?_, ?_, hstep, ?_⟩
  · intro sdb id h
    unfold getOrCreate
    rw [h]
  · intro sdb id
    unfold getOrCreate
    cases hf : sdb.find? (fun s => s.server_id == id) with
    | some s => simp [hf]
    | none =>
        simp only
        rw [find?_append_none hf]
        simp
  · intro sdb ids
    induction ids generalizing sdb with
    | nil => intro h; exact h
    | cons i ids ih =>
        intro h
        exact ih _ (hstep sdb i h)

theorem getOrCreate_idempotent_witness :
    getOrCreate [] 42 = (⟨42, [], none⟩, [⟨42, [], none⟩]) ∧
    serverUnique (getOrCreate [⟨1, [], none⟩] 1).2 :=
  ⟨getOrCreate_idempotent.1 [] 42 rfl,
    getOrCreate_idempotent.2.2.1 [⟨1, [], none⟩] 1 (by simp [serverUnique])⟩

/-- C10: the hierarchy position `create` requests for the new class role
is the live position of the reference role truncated `as u8`, i.e. taken
modulo 256: positions below 256 pass through unchanged, while e.g. a
refrole at position 300 yields a requested position of 44, not 300. -/
theorem create_position_truncation :
    (∀ p : Int, 0 ≤ p → p < 256 → (requestedPosition p : Int) = p) ∧
    (requestedPosition 300 = 44 ∧ (requestedPosition 300 : Int) ≠ 300) ∧
    (∀ fresh sdb db guild nameArg cls req,
      (create fresh sdb db guild nameArg).1 = .ok (cls, req) →
      ∃ refrole r, (getOrCreate sdb guild.id).1.refrole = some refrole ∧
        guild.roles.find? (fun rr => rr.id == refrole) = some r ∧
        req.position = requestedPosition r.position) := by
  refine ⟨?_, ⟨by decide, by decide⟩, ?_⟩
  · intro p h1 h2
    unfold requestedPosition
    omega
  · intro fresh sdb db guild nameArg cls req h
    unfold create at h
    simp only at h
    split at h
    · exact absurd h (by simp)
    next refrole heq =>
      split at h
      · exact absurd h (by simp)
      split at h
      · exact absurd h (by simp)
      split at h
      · exact absurd h (by simp)
      split at h
      · exact absurd h (by simp)
      next r hfind =>
        refine ⟨refrole, r, heq, hfind, ?_⟩
        simp only [Except.ok.injEq, Prod.mk.injEq] at h
        rw [← h.2]

theorem chunk25_lengths (l : List α) :
    (chunk25 l).map List.length =
      List.replicate (l.length / 25) 25 ++
        (if l.length % 25 = 0 then [] else [l.length % 25]) := by
  induction l using chunk25.induct with
  | case1 => simp [chunk25]
  | case2 a t ih =>
      rw [chunk25]
      simp only [List.map_cons, ih]
      by_cases h : 24 ≤ t.length
      · have hhead : (a :: t.take 24).length = 25 := by
          simp [List.length_take]
          omega
        have h1 : (a :: t).length / 25 = (t.drop 24).length / 25 + 1 := by
          simp [List.length_drop]
          omega
        have h2 : (a :: t).length % 25 = (t.drop 24).length % 25 := by
          simp [List.length_drop]
          omega
        rw [hhead, h1, h2, List.replicate_succ, List.cons_append]
      · have hdrop : t.drop 24 = [] := by
          rw [List.drop_eq_nil_iff]
          omega
        have htake : t.take 24 = t := List.take_of_length_le (by omega)
        have h1 : (a :: t).length / 25 = 0 := by
          simp
          omega
        have h2 : (a :: t).length % 25 = t.length + 1 := by
          have : (a :: t).length = t.length + 1 := by simp
          rw [this]
          omega
        rw [hdrop, htake, h1, h2]
        simp

/-- C7: the class menu paginates the sorted options into groups of at
most 25, one selection control per group with `min_values = 0` and
`max_values` equal to the size of the group; `n` classes produce controls of
sizes `25, ..., 25, n mod 25` (no trailing control when the remainder is
zero), so 53 classes yield exactly 3 controls sized 25, 25, 3. -/
theorem class_menu_pagination (classes : List ClassRec)
    (memberRoles : List Nat) :
    ((buildClassMenu classes memberRoles).map (fun m => m.options.length) =
      List.replicate (classes.length / 25) 25 ++
        (if classes.length % 25 = 0 then [] else [classes.length % 25])) ∧
    (∀ m ∈ buildClassMenu classes memberRoles,
      m.min_values = 0 ∧ m.max_values = m.options.length) ∧
    (classes.length = 53 →
      (buildClassMenu classes memberRoles).length = 3 ∧
      (buildClassMenu classes memberRoles).map (fun m => m.options.length) =
        [25, 25, 3]) := by
  have hmap : (buildClassMenu classes memberRoles).map
      (fun m => m.options.length) =
      (chunk25 ((sortClasses classes).map
        (fun c => SelectOption.mk c.name (u64ToString c.role)
          (decide (c.role ∈ memberRoles))))).map List.length := by
    unfold buildClassMenu
    simp only [List.map_map]
    have hsnd : ((chunk25 ((sortClasses classes).map
        (fun c => SelectOption.mk c.name (u64ToString c.role)
          (decide (c.role ∈ memberRoles))))).enum.map Prod.snd) =
        chunk25 ((sortClasses classes).map
          (fun c => SelectOption.mk c.name (u64ToString c.role)
            (decide (c.role ∈ memberRoles)))) :=
      List.enumFrom_map_snd 0 _
    calc _ = ((chunk25 ((sortClasses classes).map
          (fun c => SelectOption.mk c.name (u64ToString c.role)
            (decide (c.role ∈ memberRoles))))).enum.map Prod.snd).map
          List.length := by
            rw [List.map_map]
            rfl
      _ = _ := by rw [hsnd]
  have hoptlen : ((sortClasses classes).map
      (fun c => SelectOption.mk c.name (u64ToString c.role)
        (decide (c.role ∈ memberRoles)))).length = classes.length := by
    simp [sortClasses, List.length_insertionSort]
  have hfirst : (buildClassMenu classes memberRoles).map
      (fun m => m.options.length) =
      List.replicate (classes.length / 25) 25 ++
        (if classes.length % 25 = 0 then [] else [classes.length % 25]) := by
    rw [hmap, chunk25_lengths, hoptlen]
  refine ⟨hfirst, ?_, ?_⟩
  · intro m hm
    unfold buildClassMenu at hm
    obtain ⟨p, _, hp⟩ := List.mem_map.mp hm
    rw [← hp]
    exact ⟨rfl, rfl⟩
  · intro hlen
    have h2 : (buildClassMenu classes memberRoles).map
        (fun m => m.options.length) = [25, 25, 3] := by
      rw [hfirst, hlen]
      simp [List.replicate]
    refine ⟨?_, h2⟩
    have := congrArg List.length h2
    simpa using this

theorem class_menu_pagination_witness :
    (buildClassMenu (List.replicate 53 ⟨1, "c", "c", 9, 9, [], []⟩) []).length = 3 ∧
    (buildClassMenu (List.replicate 53 ⟨1, "c", "c", 9, 9, [], []⟩) []).map
      (fun m => m.options.length) = [25, 25, 3] :=
  (class_menu_pagination (List.replicate 53 ⟨1, "c", "c", 9, 9, [], []⟩) []).2.2
    (by simp)

theorem create_position_truncation_witness :
    (requestedPosition 5 : Int) = 5 ∧
    (∃ refrole r,
      (getOrCreate [⟨1, [], some 3⟩] 1).1.refrole = some refrole ∧
      (⟨1, [⟨3, "ref", 300⟩], []⟩ : Guild).roles.find?
        (fun rr => rr.id == refrole) = some r ∧
      (⟨"CS 101", true, 44⟩ : RoleReq).position = requestedPosition r.position) :=
  ⟨create_position_truncation.1 5 (by decide) (by decide),
    create_position_truncation.2.2 ⟨20, 500, 7, 8, 9, 11⟩ [⟨1, [], some 3⟩] []
      ⟨1, [⟨3, "ref", 300⟩], []⟩ " CS 101 "
      ⟨1, "CS 101", "cs101", 20, 500, [7, 8, 9], [11]⟩ ⟨"CS 101", true, 44⟩
      (by decide)⟩

theorem parseDigit_digitChar {d : Nat} (hd : d < 10) :
    parseDigit (digitChar d) = some d := by
  interval_cases d <;> decide

theorem digitChar_ne_plus (d : Nat) : digitChar d ≠ '+' := by
  unfold digitChar
  split <;> decide

theorem le_foldl_digits (ds : List Nat) (acc : Nat) :
    acc ≤ ds.foldl (fun a d => a * 10 + d) acc := by
  induction ds generalizing acc with
  | nil => simp
  | cons d ds ih => exact le_trans (by omega) (ih (acc * 10 + d))

theorem parseU64Core_digits (ds : List Nat) (acc : Nat)
    (hds : ∀ d ∈ ds, d < 10)
    (hbound : ds.foldl (fun a d => a * 10 + d) acc < 2 ^ 64) :
    parseU64Core (ds.map digitChar) acc =
      some (ds.foldl (fun a d => a * 10 + d) acc) := by
  induction ds generalizing acc with
  | nil => simp [parseU64Core]
  | cons d ds ih =>
      have hd : d < 10 := hds d (by simp)
      have hbound2 : ds.foldl (fun a d => a * 10 + d) (acc * 10 + d) < 2 ^ 64 := by
        simpa using hbound
      have hstep : acc * 10 + d < 2 ^ 64 :=
        lt_of_le_of_lt (le_foldl_digits ds (acc * 10 + d)) hbound2
      simp only [List.map_cons, parseU64Core, parseDigit_digitChar hd]
      rw [if_pos hstep]
      simpa using ih (acc * 10 + d) (fun x hx => hds x (by simp [hx])) hbound2

theorem digitsRev_lt (n : Nat) : ∀ d ∈ digitsRev n, d < 10 := by
  induction n using digitsRev.induct with
  | case1 => simp [digitsRev]
  | case2 n ih =>
      intro d hd
      rw [digitsRev] at hd
      rcases List.mem_cons.mp hd with h | h
      · subst h
        exact Nat.mod_lt _ (by omega)
      · exact ih d h

theorem foldl_append_digit (l : List Nat) (d acc : Nat) :
    (l ++ [d]).foldl (fun a x => a * 10 + x) acc =
      (l.foldl (fun a x => a * 10 + x) acc) * 10 + d := by
  rw [List.foldl_append]
  rfl

theorem digitsRev_val (n : Nat) :
    ((digitsRev n).reverse).foldl (fun a d => a * 10 + d) 0 = n := by
  induction n using digitsRev.induct with
  | case1 => simp [digitsRev]
  | case2 n ih =>
      rw [digitsRev]
      simp only [List.reverse_cons]
      rw [foldl_append_digit, ih]
      omega

theorem digitsRev_ne_nil {n : Nat} (h : n ≠ 0) : digitsRev n ≠ [] := by
  cases n with
  | zero => exact absurd rfl h
  | succ m => rw [digitsRev]; simp

theorem parseU64_roundTrip (n : Nat) (h : n < 2 ^ 64) :
    parseU64 (u64ToString n) = some n := by
  by_cases h0 : n = 0
  · subst h0
    decide
  · unfold u64ToString
    rw [if_neg h0]
    obtain ⟨d, ds, hds⟩ :=
      List.exists_cons_of_ne_nil (mt List.reverse_eq_nil_iff.mp (digitsRev_ne_nil h0))
    rw [hds]
    have hlt : ∀ x ∈ d :: ds, x < 10 := by
      rw [← hds]
      intro x hx
      exact digitsRev_lt n x (List.mem_reverse.mp hx)
    have hval : (d :: ds).foldl (fun a x => a * 10 + x) 0 = n := by
      rw [← hds]
      exact digitsRev_val n
    simp only [List.map_cons, parseU64, String.toList]
    show (if digitChar d = '+' then _ else
      parseU64Core (digitChar d :: ds.map digitChar) 0) = some n
    rw [if_neg (digitChar_ne_plus d), ← List.map_cons]
    rw [parseU64Core_digits (d :: ds) 0 hlt (by rw [hval]; exact h), hval]

theorem chunk25_subset (l : List α) :
    ∀ ch ∈ chunk25 l, ∀ x ∈ ch, x ∈ l := by
  induction l using chunk25.induct with
  | case1 => simp [chunk25]
  | case2 a t ih =>
      rw [chunk25]
      intro ch hch x hx
      rcases List.mem_cons.mp hch with h | h
      · subst h
        rcases List.mem_cons.mp hx with h | h
        · simp [h]
        · exact List.mem_cons_of_mem a (List.mem_of_mem_take h)
      · exact List.mem_cons_of_mem a (List.mem_of_mem_drop (ih ch h x hx))

theorem mapM_parse_map (rs : List Nat) (h : ∀ r ∈ rs, r < 2 ^ 64) :
    (rs.map u64ToString).mapM parseU64 = some rs := by
  induction rs with
  | nil => rfl
  | cons r rs ih =>
      simp only [List.map_cons, List.mapM_cons]
      rw [parseU64_roundTrip r (h r (by simp)),
        ih (fun x hx => h x (by simp [hx]))]
      rfl

/-- C9: parsing the option values the menu generated back into role ids
is total — every value of every rendered control is the decimal string
of the role of some listed class and parses back to it, so the submit
handler unwraps cannot panic on system-generated values — while a
malformed value does make the parse fail. -/
theorem menu_value_parse_total :
    (∀ r : Nat, r < 2 ^ 64 → parseU64 (u64ToString r) = some r) ∧
    (∀ classes memberRoles m o, (∀ c ∈ classes, c.role < 2 ^ 64) →
      m ∈ buildClassMenu classes memberRoles → o ∈ m.options →
      ∃ c ∈ classes, o.value = u64ToString c.role ∧
        parseU64 o.value = some c.role) ∧
    (∀ (memberRoles shown selected : List Nat),
      (∀ r ∈ shown ++ selected, r < 2 ^ 64) →
      submitNewRoles memberRoles (shown.map u64ToString)
        (selected.map u64ToString) =
        some (newRoleSet memberRoles.toFinset shown.toFinset
          selected.toFinset)) ∧
    parseU64 "not-a-role-id" = none := by
  refine ⟨parseU64_roundTrip, ?_, ?_, by decide⟩
  · intro classes memberRoles m o hroles hm ho
    unfold buildClassMenu at hm
    obtain ⟨p, hp, hpm⟩ := List.mem_map.mp hm
    have hopt : o ∈ p.2 := by
      rw [← hpm] at ho
      exact ho
    have hp2 : p.2 ∈ chunk25 ((sortClasses classes).map
        (fun c => SelectOption.mk c.name (u64ToString c.role)
          (decide (c.role ∈ memberRoles)))) := by
      have := List.mem_enum_iff_getElem?.mp hp
      exact List.getElem?_mem this
    have hoin := chunk25_subset _ _ hp2 o hopt
    obtain ⟨c, hc, hco⟩ := List.mem_map.mp hoin
    have hcin : c ∈ classes := (List.mem_insertionSort classLe).mp hc
    refine ⟨c, hcin, ?_, ?_⟩
    · rw [← hco]
    · rw [← hco]
      exact parseU64_roundTrip c.role (hroles c hcin)
  · intro memberRoles shown selected hlt
    unfold submitNewRoles
    rw [mapM_parse_map shown (fun r hr => hlt r (by simp [hr])),
      mapM_parse_map selected (fun r hr => hlt r (by simp [hr]))]

theorem menu_value_parse_total_witness :
    parseU64 (u64ToString 123456789) = some 123456789 :=
  menu_value_parse_total.1 123456789 (by norm_num)

theorem getOrCreate_serverId (sdb : ServerDb) (id : Nat) :
    (getOrCreate sdb id).1.server_id = id := by
  unfold getOrCreate
  cases hf : sdb.find? (fun s => s.server_id == id) with
  | some s => simpa using List.find?_some hf
  | none => rfl

theorem classExists_false {db : ClassDb} {sid : Nat} {name : String}
    (h : classExists db sid name = false) :
    ∀ c ∈ db, ¬(c.server_id = sid ∧ c.name = name) := by
  intro c hc
  unfold classExists at h
  have := List.any_eq_false.mp h c hc
  simpa using this

theorem findByRole_none {db : ClassDb} {role : Nat}
    (h : findByRole db role = none) : ∀ c ∈ db, c.role ≠ role := by
  intro c hc
  have := List.find?_eq_none.mp h c hc
  simpa using this

theorem findByRole_some {db : ClassDb} {role : Nat} {c : ClassRec}
    (h : findByRole db role = some c) : c ∈ db ∧ c.role = role := by
  refine ⟨List.mem_of_find?_eq_some h, ?_⟩
  simpa using List.find?_some h

theorem mem_insertNew {x y : Nat} {l : List Nat} :
    x ∈ insertNew y l ↔ x = y ∨ x ∈ l := by
  unfold insertNew
  by_cases h : y ∈ l
  · rw [if_pos h]
    constructor
    · exact Or.inr
    · rintro (rfl | h2)
      · exact h
      · exact h2
  · rw [if_neg h]
    simp [or_comm]

theorem nodup_insertNew {y : Nat} {l : List Nat} (h : l.Nodup) :
    (insertNew y l).Nodup := by
  unfold insertNew
  by_cases hy : y ∈ l
  · rw [if_pos hy]
    exact h
  · rw [if_neg hy]
    simp [List.nodup_append, h, hy]

theorem classifyChannels_ok (l : List GuildChannelRec) :
    ∀ txt vc, (∀ c ∈ l, c.kind = .text ∨ c.kind = .voice) →
    ∃ txt2 vc2, classifyChannels l txt vc = .ok (txt2, vc2) ∧
      (∀ x, x ∈ txt2 ↔ x ∈ txt ∨ ∃ c ∈ l, c.id = x ∧ c.kind = .text) ∧
      (∀ x, x ∈ vc2 ↔ x ∈ vc ∨ ∃ c ∈ l, c.id = x ∧ c.kind = .voice) ∧
      (txt.Nodup → txt2.Nodup) ∧ (vc.Nodup → vc2.Nodup) := by
  induction l with
  | nil =>
      intro txt vc _
      exact ⟨txt, vc, rfl, by simp, by simp, id, id⟩
  | cons c rest ih =>
      intro txt vc h
      rcases h c (by simp) with hk | hk
      · obtain ⟨txt2, vc2, heq, htxt, hvc, hnt, hnv⟩ :=
          ih (insertNew c.id txt) vc (fun x hx => h x (by simp [hx]))
        refine ⟨txt2, vc2, by simp only [classifyChannels, hk]; exact heq,
          ?_, ?_, fun hn => hnt (nodup_insertNew hn), hnv⟩
        · intro x
          rw [htxt x, mem_insertNew]
          constructor
          · rintro ((rfl | hx) | ⟨c2, hc2, hx2⟩)
            · exact Or.inr ⟨c, by simp, rfl, hk⟩
            · exact Or.inl hx
            · exact Or.inr ⟨c2, by simp [hc2], hx2⟩
          · rintro (hx | ⟨c2, hc2, hid, hkind⟩)
            · exact Or.inl (Or.inr hx)
            · rcases List.mem_cons.mp hc2 with rfl | hc2
              · exact Or.inl (Or.inl hid.symm)
              · exact Or.inr ⟨c2, hc2, hid, hkind⟩
        · intro x
          rw [hvc x]
          constructor
          · rintro (hx | ⟨c2, hc2, hx2⟩)
            · exact Or.inl hx
            · exact Or.inr ⟨c2, by simp [hc2], hx2⟩
          · rintro (hx | ⟨c2, hc2, hid, hkind⟩)
            · exact Or.inl hx
            · rcases List.mem_cons.mp hc2 with rfl | hc2
              · rw [hk] at hkind
                exact absurd hkind (by decide)
              · exact Or.inr ⟨c2, hc2, hid, hkind⟩
      · obtain ⟨txt2, vc2, heq, htxt, hvc, hnt, hnv⟩ :=
          ih txt (insertNew c.id vc) (fun x hx => h x (by simp [hx]))
        refine ⟨txt2, vc2, by simp only [classifyChannels, hk]; exact heq,
          ?_, ?_, hnt, fun hn => hnv (nodup_insertNew hn)⟩
        · intro x
          rw [htxt x]
          constructor
          · rintro (hx | ⟨c2, hc2, hx2⟩)
            · exact Or.inl hx
            · exact Or.inr ⟨c2, by simp [hc2], hx2⟩
          · rintro (hx | ⟨c2, hc2, hid, hkind⟩)
            · exact Or.inl hx
            · rcases List.mem_cons.mp hc2 with rfl | hc2
              · rw [hk] at hkind
                exact absurd hkind (by decide)
              · exact Or.inr ⟨c2, hc2, hid, hkind⟩
        · intro x
          rw [hvc x, mem_insertNew]
          constructor
          · rintro ((rfl | hx) | ⟨c2, hc2, hx2⟩)
            · exact Or.inr ⟨c, by simp, rfl, hk⟩
            · exact Or.inl hx
            · exact Or.inr ⟨c2, by simp [hc2], hx2⟩
          · rintro (hx | ⟨c2, hc2, hid, hkind⟩)
            · exact Or.inl (Or.inr hx)
            · rcases List.mem_cons.mp hc2 with rfl | hc2
              · exact Or.inl (Or.inl hid.symm)
              · exact Or.inr ⟨c2, hc2, hid, hkind⟩

theorem classifyChannels_err (good : List GuildChannelRec)
    (bad : GuildChannelRec) (rest : List GuildChannelRec)
    (hgood : ∀ c ∈ good, c.kind = .text ∨ c.kind = .voice)
    (hbad1 : bad.kind ≠ .text) (hbad2 : bad.kind ≠ .voice) :
    ∀ txt vc, classifyChannels (good ++ bad :: rest) txt vc =
      .error (.InvalidChannelType bad.id) := by
  induction good with
  | nil =>
      intro txt vc
      rw [List.nil_append]
      show classifyChannels (bad :: rest) txt vc = _
      cases hk : bad.kind
      · exact absurd hk hbad1
      · exact absurd hk hbad2
      · simp only [classifyChannels, hk]
      · simp only [classifyChannels, hk]
  | cons c good ih =>
      intro txt vc
      rcases hgood c (by simp) with hk | hk <;>
        · rw [List.cons_append]
          simp only [classifyChannels, hk]
          exact ih (fun x hx => hgood x (by simp [hx])) _ _

/-- C4: `track` pools the explicitly supplied channels with every live
guild channel parented under the given category, de-duplicates and
classifies them by channel type into text/voice; a channel of any other
type makes the whole call fail with `InvalidChannelType` naming that
channel, persisting nothing. -/
theorem track_channel_classification (sdb : ServerDb) (db : ClassDb)
    (guild : Guild) (nameArg : Option String) (role : RoleRec)
    (category : GuildChannelRec) (channels : List GuildChannelRec)
    (hname : classExists db guild.id (effectiveName nameArg role) = false)
    (hrole : findByRole db role.id = none) :
    (∀ ch, ch ∈ implicitChannels guild category ↔
      ch ∈ guild.channels ∧ ch.kind ≠ .category ∧
        ch.parent_id = some category.id) ∧
    ((∀ c ∈ channels ++ implicitChannels guild category,
        c.kind = .text ∨ c.kind = .voice) →
      ∃ cls, track sdb db guild nameArg role category channels =
          (.ok cls, (getOrCreate sdb guild.id).2, db ++ [cls]) ∧
        (∀ x, x ∈ cls.text_channels ↔
          ∃ c ∈ channels ++ implicitChannels guild category,
            c.id = x ∧ c.kind = .text) ∧
        (∀ x, x ∈ cls.voice_channels ↔
          ∃ c ∈ channels ++ implicitChannels guild category,
            c.id = x ∧ c.kind = .voice) ∧
        cls.text_channels.Nodup ∧ cls.voice_channels.Nodup) ∧
    (∀ good bad rest,
      channels ++ implicitChannels guild category = good ++ bad :: rest →
      (∀ c ∈ good, c.kind = .text ∨ c.kind = .voice) →
      bad.kind ≠ .text → bad.kind ≠ .voice →
      track sdb db guild nameArg role category channels =
        (.error (.InvalidChannelType bad.id),
          (getOrCreate sdb guild.id).2, db)) := by
  refine ⟨?_, ?_, ?_⟩
  · intro ch
    unfold implicitChannels
    rw [List.mem_filter]
    simp
  · intro hall
    obtain ⟨txt2, vc2, heq, htxt, hvc, hnt, hnv⟩ :=
      classifyChannels_ok (channels ++ implicitChannels guild category)
        [] [] hall
    refine ⟨⟨(getOrCreate sdb guild.id).1.server_id,
      effectiveName nameArg role, shortName (effectiveName nameArg role),
      role.id, category.id, txt2, vc2⟩, ?_, ?_, ?_,
      hnt List.nodup_nil, hnv List.nodup_nil⟩
    · unfold track
      simp only [hname, Bool.false_eq_true, if_false, hrole, heq]
    · intro x
      have := htxt x
      simpa using this
    · intro x
      have := hvc x
      simpa using this
  · intro good bad rest hsplit hgood hbad1 hbad2
    unfold track
    simp only [hname, Bool.false_eq_true, if_false, hrole, hsplit,
      classifyChannels_err good bad rest hgood hbad1 hbad2]

theorem track_channel_classification_witness :
    track [] [] ⟨1, [], [⟨91, "announcements", .other, some 500⟩]⟩
        (some "CS") ⟨20, "CS", 5⟩ ⟨500, "cat", .category, none⟩ [] =
      (.error (.InvalidChannelType 91), [⟨1, [], none⟩], []) :=
  (track_channel_classification [] [] ⟨1, [], [⟨91, "announcements", .other, some 500⟩]⟩
      (some "CS") ⟨20, "CS", 5⟩ ⟨500, "cat", .category, none⟩ []
      (by decide) (by decide)).2.2
    [] ⟨91, "announcements", .other, some 500⟩ [] (by decide)
    (by decide) (by decide) (by decide)

theorem track_db_shape (sdb : ServerDb) (db : ClassDb) (guild : Guild)
    (nameArg : Option String) (role : RoleRec) (category : GuildChannelRec)
    (channels : List GuildChannelRec) :
    (track sdb db guild nameArg role category channels).2.2 = db ∨
    ∃ cls, (track sdb db guild nameArg role category channels).2.2 =
        db ++ [cls] ∧ cls.server_id = guild.id ∧
      cls.name = effectiveName nameArg role ∧ cls.role = role.id ∧
      classExists db guild.id (effectiveName nameArg role) = false ∧
      findByRole db role.id = none := by
  unfold track
  cases hname : classExists db guild.id (effectiveName nameArg role) with
  | true => simp [hname]
  | false =>
      cases hrole : findByRole db role.id with
      | some c => simp [hname, hrole]
      | none =>
          cases hcls : classifyChannels
              (channels ++ implicitChannels guild category) [] [] with
          | error e => simp [hname, hrole, hcls]
          | ok p =>
              right
              refine ⟨⟨(getOrCreate sdb guild.id).1.server_id,
                effectiveName nameArg role,
                shortName (effectiveName nameArg role), role.id,
                category.id, p.1, p.2⟩, ?_,
                getOrCreate_serverId sdb guild.id, rfl, rfl, rfl, rfl⟩
              simp [hname, hrole, hcls]

theorem create_db_shape (fresh : FreshIds) (sdb : ServerDb) (db : ClassDb)
    (guild : Guild) (nameArg : String) :
    (create fresh sdb db guild nameArg).2.2 = db ∨
    ∃ cls, (create fresh sdb db guild nameArg).2.2 = db ++ [cls] ∧
      cls.server_id = guild.id ∧ cls.name = rustTrim nameArg ∧
      cls.role = fresh.roleId ∧
      classExists db guild.id (rustTrim nameArg) = false := by
  unfold create
  simp only [getOrCreate_serverId]
  cases href : (getOrCreate sdb guild.id).1.refrole with
  | none => simp [href]
  | some rid =>
      cases hname : classExists db guild.id (rustTrim nameArg) with
      | true => simp [href, hname]
      | false =>
          cases hr : guild.roles.any
              (fun r => rustToLower r.name == rustToLower (rustTrim nameArg)) with
          | true => simp [href, hname, hr]
          | false =>
              cases hc : guild.channels.any
                  (fun c => c.kind == .category &&
                    rustToLower c.name == rustToLower (rustTrim nameArg)) with
              | true => simp [href, hname, hr, hc]
              | false =>
                  cases hf : guild.roles.find? (fun r => r.id == rid) with
                  | none => simp [href, hname, hr, hc, hf]
                  | some r =>
                      right
                      refine ⟨⟨guild.id, rustTrim nameArg,
                        shortName (rustTrim nameArg), fresh.roleId,
                        fresh.catId, [fresh.ch1, fresh.ch2, fresh.ch3],
                        [fresh.vch]⟩, ?_, rfl, rfl, rfl, rfl⟩
                      simp [href, hname, hr, hc, hf]

theorem uniqueNames_append {db : ClassDb} {cls : ClassRec}
    (h : uniqueNames db)
    (hnew : classExists db cls.server_id cls.name = false) :
    uniqueNames (db ++ [cls]) := by
  unfold uniqueNames at h ⊢
  rw [List.pairwise_append]
  refine ⟨h, by simp, ?_⟩
  intro a ha b hb
  have hb2 : b = cls := by simpa using hb
  subst hb2
  intro hsid hnameeq
  exact classExists_false hnew a ha ⟨hsid, hnameeq⟩

theorem rolesUnique_append {db : ClassDb} {cls : ClassRec}
    (h : rolesUnique db) (hnew : ∀ c ∈ db, c.role ≠ cls.role) :
    rolesUnique (db ++ [cls]) := by
  unfold rolesUnique at h ⊢
  rw [List.pairwise_append]
  refine ⟨h, by simp, ?_⟩
  intro a ha b hb
  have hb2 : b = cls := by simpa using hb
  subst hb2
  exact hnew a ha

theorem uniqueNames_step {s t : ServerDb × ClassDb} (h : ClassStep s t)
    (hu : uniqueNames s.2) : uniqueNames t.2 := by
  cases h with
  | createStep fresh guild nameArg s hfresh =>
      rcases create_db_shape fresh s.1 s.2 guild nameArg with
        hsh | ⟨cls, heq, hsid, hnm, _, hex⟩
      · rw [hsh]
        exact hu
      · rw [heq]
        exact uniqueNames_append hu (by rw [hsid, hnm]; exact hex)
  | trackStep guild nameArg role category channels s =>
      rcases track_db_shape s.1 s.2 guild nameArg role category channels with
        hsh | ⟨cls, heq, hsid, hnm, _, hex, _⟩
      · rw [hsh]
        exact hu
      · rw [heq]
        exact uniqueNames_append hu (by rw [hsid, hnm]; exact hex)

theorem rolesUnique_step {s t : ServerDb × ClassDb} (h : ClassStep s t)
    (hu : rolesUnique s.2) : rolesUnique t.2 := by
  cases h with
  | createStep fresh guild nameArg s hfresh =>
      rcases create_db_shape fresh s.1 s.2 guild nameArg with
        hsh | ⟨cls, heq, _, _, hrl, _⟩
      · rw [hsh]
        exact hu
      · rw [heq]
        refine rolesUnique_append hu ?_
        intro c hc hceq
        rw [hrl] at hceq
        exact hfresh (hceq ▸ List.mem_map_of_mem ClassRec.role hc)
  | trackStep guild nameArg role category channels s =>
      rcases track_db_shape s.1 s.2 guild nameArg role category channels with
        hsh | ⟨cls, heq, _, _, hrl, _, hfb⟩
      · rw [hsh]
        exact hu
      · rw [heq]
        refine rolesUnique_append hu ?_
        intro c hc
        rw [hrl]
        exact findByRole_none hfb c hc

/-- C2 counterexample: with a class named `"Math"` on record for guild 1,
a `track` whose effective name `"MATH"` matches it case-insensitively
(but not exactly) does not fail with `ClassExists` — it persists a second
record, leaving two classes of the same guild whose names are equal up to
case. -/
theorem class_name_case_counterexample :
    rustToLower "MATH" = rustToLower "Math" ∧
    effectiveName (some "MATH") ⟨20, "Other", 5⟩ = "MATH" ∧
    (track [] [⟨1, "Math", "math", 10, 100, [], []⟩]
        ⟨1, [⟨20, "Other", 5⟩], []⟩ (some "MATH") ⟨20, "Other", 5⟩
        ⟨500, "cat", .category, none⟩ []).1 =
      .ok ⟨1, "MATH", "math", 20, 500, [], []⟩ ∧
    (track [] [⟨1, "Math", "math", 10, 100, [], []⟩]
        ⟨1, [⟨20, "Other", 5⟩], []⟩ (some "MATH") ⟨20, "Other", 5⟩
        ⟨500, "cat", .category, none⟩ []).2.2 =
      [⟨1, "Math", "math", 10, 100, [], []⟩,
        ⟨1, "MATH", "math", 20, 500, [], []⟩] := by
  refine ⟨by decide, by decide, by decide, by decide⟩

/-- C2 (amended): class-name uniqueness is exact-match (the store filter
`{ server_id, name }` uses the default binary collation): a `create`
(with a refrole configured) or `track` whose effective name exactly
equals the name of an existing class in the guild fails with `ClassExists`
and persists nothing, and every non-racing sequence of `create`/`track`
calls preserves exact-name uniqueness per guild. -/
theorem class_name_uniqueness_exact :
    (∀ sdb db guild nameArg role category channels,
      classExists db guild.id (effectiveName nameArg role) = true →
      track sdb db guild nameArg role category channels =
        (.error .ClassExists, (getOrCreate sdb guild.id).2, db)) ∧
    (∀ fresh sdb db guild nameArg rid,
      (getOrCreate sdb guild.id).1.refrole = some rid →
      classExists db guild.id (rustTrim nameArg) = true →
      create fresh sdb db guild nameArg =
        (.error .ClassExists, (getOrCreate sdb guild.id).2, db)) ∧
    (∀ s t, ClassStep s t → uniqueNames s.2 → uniqueNames t.2) ∧
    (∀ s t, ClassReach s t → uniqueNames s.2 → uniqueNames t.2) := by
  refine ⟨?_, ?_, fun s t h hu => uniqueNames_step h hu, ?_⟩
  · intro sdb db guild nameArg role category channels h
    unfold track
    simp only [h, if_true]
  · intro fresh sdb db guild nameArg rid href h
    unfold create
    simp only [getOrCreate_serverId, href, h, if_true]
  · intro s t h
    induction h with
    | refl => exact id
    | tail _ h2 ih => exact fun hu => uniqueNames_step h2 (ih hu)

theorem class_name_uniqueness_exact_witness :
    track [] [⟨1, "Math", "math", 10, 100, [], []⟩] ⟨1, [], []⟩
        (some " Math ") ⟨20, "Other", 5⟩ ⟨500, "cat", .category, none⟩ [] =
      (.error .ClassExists,
        (getOrCreate [] (1 : Nat)).2, [⟨1, "Math", "math", 10, 100, [], []⟩]) :=
  class_name_uniqueness_exact.1 [] [⟨1, "Math", "math", 10, 100, [], []⟩]
    ⟨1, [], []⟩ (some " Math ") ⟨20, "Other", 5⟩
    ⟨500, "cat", .category, none⟩ [] (by decide)

/-- C5 counterexample: role 10 is bound to the record class `"Math"`;
a `track` naming role 10 with the (exactly colliding) name `"Math"`
fails with `ClassExists`, not with `RoleInUse("Math")` — the name check
runs first. -/
theorem track_role_in_use_counterexample :
    findByRole [⟨1, "Math", "math", 10, 100, [], []⟩] 10 =
      some ⟨1, "Math", "math", 10, 100, [], []⟩ ∧
    (track [] [⟨1, "Math", "math", 10, 100, [], []⟩] ⟨1, [], []⟩
        (some "Math") ⟨10, "MathRole", 5⟩
        ⟨500, "cat", .category, none⟩ []).1 = .error .ClassExists ∧
    (.error .ClassExists : Except ClassError ClassRec) ≠
      .error (.RoleInUse "Math") := by
  refine ⟨by decide, by decide, by decide⟩

/-- C5 (amended): provided the effective name does not exactly match an
existing class record (that case fails earlier with `ClassExists`),
`track`-ing a role already bound to class C fails with
`RoleInUse(C.name)` and persists nothing; `find_by_role` returning C
means C is on record with that role, and role uniqueness across Class
records is preserved by every non-racing `create`/`track` sequence
(the platform-assigned role id of create being a fresh snowflake). -/
theorem track_role_in_use (sdb : ServerDb) (db : ClassDb) (guild : Guild)
    (nameArg : Option String) (role : RoleRec)
    (category : GuildChannelRec) (channels : List GuildChannelRec)
    (c : ClassRec)
    (hname : classExists db guild.id (effectiveName nameArg role) = false)
    (hfound : findByRole db role.id = some c) :
    track sdb db guild nameArg role category channels =
      (.error (.RoleInUse c.name), (getOrCreate sdb guild.id).2, db) ∧
    (c ∈ db ∧ c.role = role.id) ∧
    (∀ s t, ClassStep s t → rolesUnique s.2 → rolesUnique t.2) ∧
    (∀ s t, ClassReach s t → rolesUnique s.2 → rolesUnique t.2) := by
  refine ⟨?_, findByRole_some hfound,
    fun s t h hu => rolesUnique_step h hu, ?_⟩
  · unfold track
    simp only [hname, Bool.false_eq_true, if_false, hfound]
  · intro s t h
    induction h with
    | refl => exact id
    | tail _ h2 ih => exact fun hu => rolesUnique_step h2 (ih hu)

theorem track_role_in_use_witness :
    track [] [⟨1, "Math", "math", 10, 100, [], []⟩] ⟨1, [], []⟩
        (some "Calc") ⟨10, "MathRole", 5⟩ ⟨500, "cat", .category, none⟩ [] =
      (.error (.RoleInUse "Math"), (getOrCreate [] (1 : Nat)).2,
        [⟨1, "Math", "math", 10, 100, [], []⟩]) :=
  (track_role_in_use [] [⟨1, "Math", "math", 10, 100, [], []⟩] ⟨1, [], []⟩
    (some "Calc") ⟨10, "MathRole", 5⟩ ⟨500, "cat", .category, none⟩ []
    ⟨1, "Math", "math", 10, 100, [], []⟩ (by decide) (by decide)).1

end CsDiscord
